import Mathlib

/-!
Verification development for the worktree tool (TypeScript sources).

The Lean definitions below are a shallow embedding of the program:
pure functions of the source become Lean functions, the stateful
ConfigManager becomes explicit state passing, external process execution
becomes a function from program name and arguments to a captured result,
and fallible code returns Except.
-/

namespace KWT

/-! ## Data model (src/types/index.ts) -/

/-- PrefixTypeSchema: enum of none, manual, detect. -/
inductive PrefixType where
  | noPrefix
  | manual
  | detect
deriving DecidableEq, Repr

/-- PostCommandSchema: a label plus an ordered list of command lines. -/
structure PostCommand where
  label : String
  commands : List String
deriving DecidableEq, Repr

/-- ConfigSchema after zod parsing: prefixType, worktreeDir and postCommands
are always present (zod fills their defaults); manualPrefix is an optional
key, `none` modelling an absent key in the parsed object. -/
structure Config where
  prefixType : PrefixType
  manualPrefix : Option String
  worktreeDir : String
  postCommands : List PostCommand
deriving DecidableEq, Repr

/-- A Partial Config value before validation: every field may be absent. -/
structure PartialConfig where
  prefixType : Option PrefixType := none
  manualPrefix : Option String := none
  worktreeDir : Option String := none
  postCommands : Option (List PostCommand) := none
deriving DecidableEq, Repr

/-- ConfigSchema.parse on a well-typed partial object: fills the documented
defaults for the absent fields; manualPrefix stays optional. -/
def fillDefaults (p : PartialConfig) : Config :=
  { prefixType := p.prefixType.getD PrefixType.noPrefix
    manualPrefix := p.manualPrefix
    worktreeDir := p.worktreeDir.getD "../worktrees"
    postCommands := p.postCommands.getD [] }

/-- Error classes of src/types/index.ts, carrying the human-readable message. -/
structure ConfigError where
  message : String
deriving DecidableEq, Repr

structure GitError where
  message : String
deriving DecidableEq, Repr

structure GitLabError where
  message : String
deriving DecidableEq, Repr

structure GitHubError where
  message : String
deriving DecidableEq, Repr

/-- KWTError as raised by ExecUtils.runOrThrow. -/
structure KWTError where
  message : String
  code : String
deriving DecidableEq, Repr

/-! ## ConfigManager (src/config/manager.ts) -/

namespace ConfigManager

/-- The defaultConfig object built at the top of mergeConfigs. -/
def defaultConfig : Config :=
  { prefixType := PrefixType.noPrefix
    manualPrefix := none
    worktreeDir := "../worktrees"
    postCommands := [] }

/-- ConfigManager.mergeConfigs. The source spreads defaults, then the global
object, then the local object; a spread copies every key present in the
source object, so the three always-present fields are overwritten and
manualPrefix is overwritten only when the key is present (orElse).
The trailing `if (local.postCommands)` guard of the source is always taken,
because a zod-parsed postCommands is an array and arrays are truthy. -/
def mergeConfigs (globalCfg localCfg : Option Config) : Config :=
  let d := defaultConfig
  let m1 : Config :=
    match globalCfg with
    | none => d
    | some g =>
        { prefixType := g.prefixType
          manualPrefix := g.manualPrefix.orElse (fun _ => d.manualPrefix)
          worktreeDir := g.worktreeDir
          postCommands := g.postCommands }
  match localCfg with
  | none => m1
  | some l =>
      let m2 : Config :=
        { prefixType := l.prefixType
          manualPrefix := l.manualPrefix.orElse (fun _ => m1.manualPrefix)
          worktreeDir := l.worktreeDir
          postCommands := l.postCommands }
      -- for arrays, local completely replaces global
      { m2 with postCommands := l.postCommands }

/-- Content of a configuration file on disk: missing, present but failing
schema validation, or present and valid with the parsed configuration. -/
inductive FileContent where
  | missing
  | invalid
  | valid (c : Config)
deriving DecidableEq, Repr

/-- The two configuration files (local at the repository root, global in the
home directory). -/
structure FS where
  localFile : FileContent
  globalFile : FileContent
deriving DecidableEq, Repr

/-- In-memory fields of a ConfigManager instance. -/
structure ManagerState where
  localConfig : Option Config := none
  globalConfig : Option Config := none
  mergedConfig : Option Config := none
deriving DecidableEq, Repr

/-- A freshly constructed ConfigManager. -/
def initialState : ManagerState := {}

/-- ConfigManager.loadLocalConfig: a missing file yields null; a present file
whose content fails ConfigSchema.parse raises inside the try block, the
catch logs at debug level and yields null; a valid file yields the parsed
configuration. -/
def loadLocalConfig : FileContent → Option Config
  | FileContent.missing => none
  | FileContent.invalid => none
  | FileContent.valid c => some c

/-- ConfigManager.loadGlobalConfig: same shape as loadLocalConfig. -/
def loadGlobalConfig : FileContent → Option Config
  | FileContent.missing => none
  | FileContent.invalid => none
  | FileContent.valid c => some c

/-- ConfigManager.loadConfig. Returns the cached merge when present,
otherwise loads global then local, merges and caches. The Except result
type records that the source method could raise ConfigError; the loaders
swallow their own failures, so no error is ever produced here. -/
def loadConfig (st : ManagerState) (fs : FS) :
    Except ConfigError (Config × ManagerState) :=
  match st.mergedConfig with
  | some m => Except.ok (m, st)
  | none =>
      let g := loadGlobalConfig fs.globalFile
      let l := loadLocalConfig fs.localFile
      let m := mergeConfigs g l
      Except.ok (m, { localConfig := l, globalConfig := g, mergedConfig := some m })

/-- ConfigManager.saveLocalConfig: validates the partial input against the
schema (filling defaults), writes the full object to the local file, updates
the cached local configuration and recomputes the merge against the cached
global configuration. Filesystem write failures are outside this model. -/
def saveLocalConfig (st : ManagerState) (fs : FS) (p : PartialConfig) :
    FS × ManagerState :=
  let v := fillDefaults p
  ({ fs with localFile := FileContent.valid v },
   { st with
      localConfig := some v
      mergedConfig := some (mergeConfigs st.globalConfig (some v)) })

end ConfigManager

/-! ## String helpers (JS string primitives used by the source) -/

/-- JS String.prototype.startsWith. -/
def strStartsWith (s pat : String) : Bool :=
  pat.toList.isPrefixOf s.toList

/-- JS String.prototype.endsWith. -/
def strEndsWith (s pat : String) : Bool :=
  pat.toList.isSuffixOf s.toList

/-- Whitespace removed by JS String.prototype.trim and matched by a regex
backslash-s class (the common code points). -/
def wsChar (c : Char) : Bool :=
  c == ' ' || c == '\t' || c == '\n' || c == '\r' || c == '\x0b' || c == '\x0c'

/-- JS String.prototype.trim. -/
def jsTrim (l : List Char) : List Char :=
  ((l.dropWhile wsChar).reverse.dropWhile wsChar).reverse

/-- JS String.prototype.split on a newline; splitting the empty string
yields one empty piece. -/
def splitNl : List Char → List (List Char)
  | [] => [[]]
  | c :: t =>
      match splitNl t with
      | [] => [[]]
      | h :: rs => if c = '\n' then [] :: h :: rs else (c :: h) :: rs

/-- Helper for splitting a string on whitespace runs; acc holds the current
word in reverse. -/
def wordsGo : List Char → List Char → List (List Char)
  | acc, [] => if acc.isEmpty then [] else [acc.reverse]
  | acc, c :: t =>
      if wsChar c then
        (if acc.isEmpty then wordsGo [] t else acc.reverse :: wordsGo [] t)
      else wordsGo (c :: acc) t

/-- command.trim().split on whitespace runs, with the JS artefact that an
all-whitespace command produces a single empty piece represented here as the
empty list (the source then skips it through the falsy-program check). -/
def jsWords (s : String) : List String :=
  (wordsGo [] (jsTrim s.toList)).map String.mk

/-! ## ExecUtils (src/utils/exec.ts) -/

/-- Captured result of invoking an external program. -/
structure ExecResult where
  stdout : String
  stderr : String
  exitCode : Int
deriving DecidableEq, Repr

/-- The external world seen through process execution: the invoked program
and its arguments determine the captured result. -/
def Env : Type := String → List String → ExecResult

namespace ExecUtils

/-- ExecUtils.run: invokes the program and captures stdout, stderr and the
exit code; an execa failure is caught inside run and converted into an
ExecResult with exit code defaulting to 1, so run is total and never
raises. -/
def run (env : Env) (command : String) (args : List String) : ExecResult :=
  env command args

/-- ExecUtils.runOrThrow: raises KWTError with code EXEC_ERROR when run
reports a non-zero exit, otherwise returns the captured stdout. -/
def runOrThrow (env : Env) (command : String) (args : List String) :
    Except KWTError String :=
  let result := run env command args
  if result.exitCode ≠ 0 then
    Except.error
      { message := "Command failed: " ++ command ++ " " ++ " ".intercalate args
          ++ "\n" ++ result.stderr
        code := "EXEC_ERROR" }
  else
    Except.ok result.stdout

/-- ExecUtils.exists: the source wraps run of the which command in try/catch
and returns false from the catch branch; run catches every execa failure
itself and never raises, so the catch branch is unreachable and the result
is true for every environment. -/
def existsCmd (env : Env) (command : String) : Bool :=
  let _ := run env "which" [command]
  true

end ExecUtils

/-! ## GitRemoteManager (src/git/remotes.ts)

extractRepoName matches one of two regexes against the URL.  The embedding
below implements the exact backtracking semantics of those two concrete
patterns over character lists: an unanchored scan over start positions,
greedy character-class runs (which admit no useful backtracking because the
following literal cannot match a class character), a greedy optional group,
and a lazy dot-plus capture followed by anchored optional literals. -/

namespace GitRemoteManager

/-- A character matched by an unflagged JS regex dot: anything but a line
terminator. -/
def dotOk (c : Char) : Bool :=
  c != '\n' && c != '\r' && c != '\u2028' && c != '\u2029'

/-- The lazy capture of the two regexes: a dot-plus matched lazily, followed
by an anchored optional tail described by accept.  Starting from the
shortest nonempty prefix, the match succeeds as soon as the rest of the
input satisfies accept; every consumed character must be matched by the
dot.  acc holds the consumed characters in reverse. -/
def lazyDot (accept : List Char → Bool) (acc : List Char) :
    List Char → Option (List Char)
  | [] => if !acc.isEmpty && accept [] then some acc.reverse else none
  | c :: t =>
      if !acc.isEmpty && accept (c :: t) then some acc.reverse
      else if dotOk c then lazyDot accept (c :: acc) t
      else none

/-- Tail accepted after the lazy capture in the SSH regex: an optional
literal .git, then the end of the string. -/
def sshTailAccept (rest : List Char) : Bool :=
  decide (rest = [] ∨ rest = ".git".toList)

/-- Tail accepted after the lazy capture in the HTTPS regex: an optional
literal .git, then an optional slash, then the end of the string. -/
def httpTailAccept (rest : List Char) : Bool :=
  decide (rest = [] ∨ rest = ['/'] ∨ rest = ".git".toList ∨ rest = ".git/".toList)

/-- The shared tail of the two regexes: an optional greedy group of one
slash-free run followed by a slash, then the lazy capture.  When the
optional group matches but the remainder fails, the engine backtracks to
the empty group (the run itself cannot shrink: the following slash literal
would then face a non-slash character). -/
def tailMatch (accept : List Char → Bool) (b : List Char) : Option (List Char) :=
  let attempt : Option (List Char) :=
    match b.dropWhile (fun a => a != '/') with
    | '/' :: r2 =>
        if (b.takeWhile (fun a => a != '/')).isEmpty then none
        else lazyDot accept [] r2
    | _ => none
  match attempt with
  | some nm => some nm
  | none => lazyDot accept [] b

/-- SSH regex after the literal git@ at the current position: a nonempty
colon-free run up to the first colon, the colon, then the shared tail. -/
def sshAfterAt (s : List Char) : Option (List Char) :=
  match s.dropWhile (fun a => a != ':') with
  | ':' :: b =>
      if (s.takeWhile (fun a => a != ':')).isEmpty then none
      else tailMatch sshTailAccept b
  | _ => none

/-- Unanchored scan of the SSH regex: try every start position from the
left, matching the literal git@ first. -/
def sshScan : List Char → Option (List Char)
  | [] => none
  | c :: t =>
      match
        (if (c :: t).take 4 = "git@".toList then sshAfterAt ((c :: t).drop 4)
         else none)
      with
      | some r => some r
      | none => sshScan t

/-- The literal ://  after the optional s of the scheme. -/
def stripSchemeSep : List Char → Option (List Char)
  | ':' :: '/' :: '/' :: r => some r
  | _ => none

/-- Greedy optional s of the https? scheme, with backtracking to the empty
alternative when the separator fails afterwards. -/
def schemeRest (s : List Char) : Option (List Char) :=
  match s with
  | 's' :: t =>
      match stripSchemeSep t with
      | some r => some r
      | none => stripSchemeSep s
  | _ => stripSchemeSep s

/-- HTTPS regex after the literal http at the current position: optional s,
the separator, a nonempty slash-free host run up to the first slash, the
slash, then the shared tail. -/
def httpMatch (s : List Char) : Option (List Char) :=
  match schemeRest s with
  | none => none
  | some r =>
      match r.dropWhile (fun a => a != '/') with
      | '/' :: b =>
          if (r.takeWhile (fun a => a != '/')).isEmpty then none
          else tailMatch httpTailAccept b
      | _ => none

/-- Unanchored scan of the HTTPS regex. -/
def httpScan : List Char → Option (List Char)
  | [] => none
  | c :: t =>
      match
        (if (c :: t).take 4 = "http".toList then httpMatch ((c :: t).drop 4)
         else none)
      with
      | some r => some r
      | none => httpScan t

/-- GitRemoteManager.extractRepoName.  The truthiness test on the second
capture group of the source never fails on a successful match because the
group is a dot-plus and hence nonempty. -/
def extractRepoName (url : String) : Except GitError String :=
  if strStartsWith url "git@" then
    match sshScan url.toList with
    | some nm => Except.ok (String.mk nm)
    | none => Except.error { message := "Unable to parse SSH git URL: " ++ url }
  else if strStartsWith url "http" then
    match httpScan url.toList with
    | some nm => Except.ok (String.mk nm)
    | none => Except.error { message := "Unable to parse HTTPS git URL: " ++ url }
  else
    Except.error { message := "Unsupported git URL format: " ++ url }

/-- GitRemoteManager.isGitRepo. -/
def isGitRepo (env : Env) : Bool :=
  match ExecUtils.runOrThrow env "git" ["rev-parse", "--git-dir"] with
  | Except.ok _ => true
  | Except.error _ => false

/-- GitRemoteManager.branchExists: the try/catch around runOrThrow converts
any failure into false. -/
def branchExists (env : Env) (branchName : String) : Bool :=
  match ExecUtils.runOrThrow env "git"
      ["show-ref", "--verify", "--quiet", "refs/heads/" ++ branchName] with
  | Except.ok _ => true
  | Except.error _ => false

/-- GitRemoteManager.remoteBranchExists: same shape against the remote
tracking ref. -/
def remoteBranchExists (env : Env) (branchName remote : String) : Bool :=
  match ExecUtils.runOrThrow env "git"
      ["show-ref", "--verify", "--quiet",
       "refs/remotes/" ++ remote ++ "/" ++ branchName] with
  | Except.ok _ => true
  | Except.error _ => false

end GitRemoteManager

/-! ## GitWorktreeManager (src/git/worktrees.ts) -/

/-- A worktree record parsed from the porcelain listing.  In the source the
record is assembled as a Partial and pushed with whatever fields were set
between its path marker and the next; commit and branch are therefore
optional here, and the optional bare and detached flags are booleans. -/
structure GitWorktree where
  path : String
  commit : Option String
  branch : Option String
  bare : Bool
  detached : Bool
deriving DecidableEq, Repr

namespace GitWorktreeManager

/-- The currentWorktree accumulator of the listing loop. -/
structure PartialWT where
  path : Option String := none
  commit : Option String := none
  branch : Option String := none
  bare : Bool := false
  detached : Bool := false
deriving DecidableEq, Repr

/-- Pushing the accumulator: the source pushes only when currentWorktree.path
is truthy, so a missing or empty path yields no record. -/
def finishRecord (cur : PartialWT) : Option GitWorktree :=
  match cur.path with
  | some p =>
      if p = "" then none
      else some { path := p, commit := cur.commit, branch := cur.branch,
                  bare := cur.bare, detached := cur.detached }
  | none => none

/-- One iteration of the listing loop: a path marker line emits the previous
record (when pushable) and resets the accumulator; the other recognized
lines set a field of the accumulator; anything else is ignored. -/
def stepLine (cur : PartialWT) (line : List Char) :
    Option GitWorktree × PartialWT :=
  if "worktree ".toList.isPrefixOf line then
    (finishRecord cur, { path := some (String.mk (line.drop 9)) })
  else if "HEAD ".toList.isPrefixOf line then
    (none, { cur with commit := some (String.mk (line.drop 5)) })
  else if "branch ".toList.isPrefixOf line then
    (none, { cur with branch := some (String.mk (line.drop 7)) })
  else if line = "bare".toList then
    (none, { cur with bare := true })
  else if line = "detached".toList then
    (none, { cur with detached := true })
  else
    (none, cur)

/-- The listing loop over the split lines, emitting the final accumulator at
the end of input when pushable. -/
def parseLinesGo : PartialWT → List (List Char) → List GitWorktree
  | cur, [] =>
      (match finishRecord cur with
       | some r => [r]
       | none => [])
  | cur, l :: rest =>
      match stepLine cur l with
      | (some r, cur2) => r :: parseLinesGo cur2 rest
      | (none, cur2) => parseLinesGo cur2 rest

/-- Parsing of the porcelain output: trim, split on newlines, run the loop. -/
def listWorktreesParse (out : String) : List GitWorktree :=
  parseLinesGo {} (splitNl (jsTrim out.toList))

/-- GitWorktreeManager.listWorktrees: fails with GitError wrapping the
message on non-zero exit of the listing command. -/
def listWorktrees (env : Env) : Except GitError (List GitWorktree) :=
  match ExecUtils.runOrThrow env "git" ["worktree", "list", "--porcelain"] with
  | Except.error e =>
      Except.error { message := "Failed to list worktrees: " ++ e.message }
  | Except.ok out => Except.ok (listWorktreesParse out)

/-- Node path.isAbsolute on POSIX paths. -/
def isAbsolutePath (p : String) : Bool :=
  strStartsWith p "/"

/-- Node path.resolve and path.join for the dot-segment-free paths this tool
builds: an absolute path stands, a relative one is joined to the base. -/
def resolveAgainst (base p : String) : String :=
  if isAbsolutePath p then p else base ++ "/" ++ p

/-- GitWorktreeManager.worktreeExists: no try/catch here, so a failing
listing command propagates its GitError to the caller. -/
def worktreeExists (env : Env) (cwd path : String) : Except GitError Bool :=
  match listWorktrees env with
  | Except.error e => Except.error e
  | Except.ok wts =>
      let absolutePath := if isAbsolutePath path then path else resolveAgainst cwd path
      Except.ok (wts.any (fun wt => resolveAgainst cwd wt.path == absolutePath))

/-- GitWorktreeManager.findWorktreeByName: matches on the final separator
delimited segment, accepting both separators. -/
def findWorktreeByName (env : Env) (name : String) :
    Except GitError (Option GitWorktree) :=
  match listWorktrees env with
  | Except.error e => Except.error e
  | Except.ok wts =>
      Except.ok (wts.find? (fun wt =>
        strEndsWith wt.path ("/" ++ name) || strEndsWith wt.path ("\\" ++ name)))

/-- GitWorktreeManager.resolveWorktreePath: pure, no I/O. -/
def resolveWorktreePath (cwd worktreeDir name : String) : String :=
  let baseDir := if isAbsolutePath worktreeDir then worktreeDir
                 else cwd ++ "/" ++ worktreeDir
  baseDir ++ "/" ++ name

/-- The argument list of the removal command. -/
def removeArgs (path : String) (force : Bool) : List String :=
  ["worktree", "remove"] ++ (if force then ["--force"] else []) ++ [path]

/-- The filesystem and process behaviour a removal can encounter: the result
of the removal command, whether the path still exists afterwards, whether
the recursive forced deletion succeeds, and the result of the prune
command. -/
structure RemoveWorld where
  removeResult : ExecResult
  pathStillExists : Bool
  rmOk : Bool
  pruneResult : ExecResult
deriving DecidableEq, Repr

/-- GitWorktreeManager.removeWorktree.  On a failing removal command the
catch block runs: when force was requested and the path still exists it
attempts rmSync followed by a prune through run (which never raises); a
failing rmSync reaches the inner catch, which only records a warning.  The
original error is wrapped in GitError and rethrown in every failing case.
The boolean of the result records whether the warning was emitted. -/
def removeWorktree (w : RemoveWorld) (path : String) (force : Bool) :
    Except GitError Unit × Bool :=
  let args := removeArgs path force
  let attempt : Except KWTError String :=
    if w.removeResult.exitCode ≠ 0 then
      Except.error
        { message := "Command failed: git " ++ " ".intercalate args ++ "\n"
            ++ w.removeResult.stderr
          code := "EXEC_ERROR" }
    else Except.ok w.removeResult.stdout
  match attempt with
  | Except.ok _ => (Except.ok (), false)
  | Except.error e =>
      let warned :=
        if force && w.pathStillExists then
          if w.rmOk then
            let _ := w.pruneResult
            false
          else true
        else false
      (Except.error { message := "Failed to remove worktree: " ++ e.message },
       warned)

end GitWorktreeManager

/-! ## Hosting managers (src/git/gitlab.ts, src/git/github.ts) -/

structure GitLabMR where
  iid : Int
  title : String
  source_branch : String
  target_branch : String
  state : String
  web_url : String
deriving DecidableEq, Repr

structure GitHubPR where
  number : Int
  title : String
  headRefName : String
  baseRefName : String
  state : String
  url : String
deriving DecidableEq, Repr

/-- Branch-name sanitization shared verbatim by the two hosting managers:
replace every character outside the allowed class with a dash, collapse
dash runs, strip leading and trailing dashes, and fall back when fewer than
two characters remain. -/
def isBranchChar (c : Char) : Bool :=
  c.isAlphanum || c == '-' || c == '_'

/-- The global replacement of a dash-plus regex with a single dash. -/
def collapseDashes : List Char → List Char
  | [] => []
  | [c] => [c]
  | a :: b :: t =>
      if a = '-' ∧ b = '-' then collapseDashes (b :: t)
      else a :: collapseDashes (b :: t)

/-- The global replacement removing a leading dash run and a trailing dash
run. -/
def stripDashes (l : List Char) : List Char :=
  ((l.dropWhile (fun c => c == '-')).reverse.dropWhile (fun c => c == '-')).reverse

/-- The sanitize-collapse-strip-fallback pipeline of generateWorktreeName. -/
def sanitizeWorktreeName (branch fallback : String) : String :=
  let n1 := branch.toList.map (fun c => if isBranchChar c then c else '-')
  let n2 := collapseDashes n1
  let n3 := stripDashes n2
  if n3.length < 2 then fallback else String.mk n3

namespace GitLabManager

/-- GitLabManager.isGlabAvailable. -/
def isGlabAvailable (env : Env) : Bool :=
  ExecUtils.existsCmd env "glab"

/-- GitLabManager.getMergeRequest.  parseJson stands for JSON.parse on the
captured output; its exception text is abstracted in the error message. -/
def getMergeRequest (env : Env) (parseJson : String → Option GitLabMR)
    (iid : Int) : Except GitLabError GitLabMR :=
  if !isGlabAvailable env then
    Except.error { message := "glab CLI is not available. Please install it first." }
  else
    match ExecUtils.runOrThrow env "glab"
        ["mr", "view", toString iid, "--output", "json"] with
    | Except.error e =>
        Except.error
          { message := "Failed to get merge request " ++ toString iid ++ ": "
              ++ e.message }
    | Except.ok output =>
        match parseJson output with
        | some mr => Except.ok mr
        | none =>
            Except.error
              { message := "Failed to get merge request " ++ toString iid
                  ++ ": JSON parse error" }

/-- GitLabManager.mergeRequestExists: the try/catch converts any failure
into false. -/
def mergeRequestExists (env : Env) (parseJson : String → Option GitLabMR)
    (iid : Int) : Bool :=
  match getMergeRequest env parseJson iid with
  | Except.ok _ => true
  | Except.error _ => false

/-- GitLabManager.generateWorktreeName. -/
def generateWorktreeName (env : Env) (parseJson : String → Option GitLabMR)
    (iid : Int) : Except GitLabError String :=
  match getMergeRequest env parseJson iid with
  | Except.error e => Except.error e
  | Except.ok mr =>
      Except.ok (sanitizeWorktreeName mr.source_branch ("mr-" ++ toString iid))

/-- GitLabManager.isGitLabProject. -/
def isGitLabProject (env : Env) : Bool :=
  if !isGlabAvailable env then false
  else
    match ExecUtils.runOrThrow env "glab" ["repo", "view"] with
    | Except.ok _ => true
    | Except.error _ => false

end GitLabManager

namespace GitHubManager

/-- GitHubManager.isGhAvailable. -/
def isGhAvailable (env : Env) : Bool :=
  ExecUtils.existsCmd env "gh"

/-- GitHubManager.getPullRequest. -/
def getPullRequest (env : Env) (parseJson : String → Option GitHubPR)
    (number : Int) : Except GitHubError GitHubPR :=
  if !isGhAvailable env then
    Except.error { message := "gh CLI is not available. Please install it first." }
  else
    match ExecUtils.runOrThrow env "gh"
        ["pr", "view", toString number, "--json",
         "number,title,headRefName,baseRefName,state,url"] with
    | Except.error e =>
        Except.error
          { message := "Failed to get pull request " ++ toString number ++ ": "
              ++ e.message }
    | Except.ok output =>
        match parseJson output with
        | some pr => Except.ok pr
        | none =>
            Except.error
              { message := "Failed to get pull request " ++ toString number
                  ++ ": JSON parse error" }

/-- GitHubManager.pullRequestExists. -/
def pullRequestExists (env : Env) (parseJson : String → Option GitHubPR)
    (number : Int) : Bool :=
  match getPullRequest env parseJson number with
  | Except.ok _ => true
  | Except.error _ => false

/-- GitHubManager.generateWorktreeName. -/
def generateWorktreeName (env : Env) (parseJson : String → Option GitHubPR)
    (number : Int) : Except GitHubError String :=
  match getPullRequest env parseJson number with
  | Except.error e => Except.error e
  | Except.ok pr =>
      Except.ok (sanitizeWorktreeName pr.headRefName ("pr-" ++ toString number))

end GitHubManager

/-! ## Commands (src/commands/base.ts, new.ts, remove.ts, mr.ts)

The orchestration layer is embedded over an injected record of collaborator
results (the managers), mirroring the protected manager fields of
BaseCommand; every mutating call the command code makes is recorded as an
Action in the returned trace, in execution order, while queries read the
collaborator record. -/

namespace Commands

/-- The mutating external calls a command can make. -/
inductive Action where
  | createWorktree (path branchName : String) (createBranch force checkout : Bool)
  | fetchMergeRequestBranch (iid : Int)
  | execCommand (program : String) (args : List String) (cwd : String)
  | removeWorktree (path : String) (force : Bool)
deriving DecidableEq, Repr

/-- Results of the collaborator calls a command execution can perform. -/
structure Collab where
  loadedConfig : Config
  isGitRepo : Bool
  remotePrefix : Except GitError String
  worktreeExistsAt : String → Except GitError Bool
  branchExistsQ : String → Bool
  findByName : String → Except GitError (Option GitWorktree)
  listWT : Except GitError (List GitWorktree)
  glabProject : Bool
  getMR : Int → Except GitLabError GitLabMR
  confirmRemoval : Bool
  confirmDeleteBranch : Bool
  createWorktreeR : Except GitError Unit
  removeWorktreeR : Except GitError Unit
  fetchMRBranchR : Except GitLabError Unit
  execEnv : Env

/-- BaseCommand.generatePrefix: switch on the configured prefix type; the
default branch of the source switch is unreachable for a schema-validated
configuration. -/
def generatePrefix (c : Collab) : Except String String :=
  match c.loadedConfig.prefixType with
  | PrefixType.noPrefix => Except.ok ""
  | PrefixType.manual => Except.ok (c.loadedConfig.manualPrefix.getD "")
  | PrefixType.detect =>
      match c.remotePrefix with
      | Except.ok p => Except.ok p
      | Except.error e => Except.error e.message

/-- BaseCommand.generateWorktreeName: prefix concatenated with the base
name. -/
def generateWorktreeNameB (c : Collab) (baseName : String) :
    Except String String :=
  match generatePrefix c with
  | Except.error m => Except.error m
  | Except.ok p => Except.ok (p ++ baseName)

/-- The inner loop of BaseCommand.executePostCommand: each command line is
split on whitespace; an empty program is warned about and skipped; a
failing command aborts the remaining commands, surfacing the error. -/
def runCommandList (env : Env) (worktreePath : String) :
    List String → Except String Unit × List Action
  | [] => (Except.ok (), [])
  | cmd :: rest =>
      match jsWords cmd with
      | [] => runCommandList env worktreePath rest
      | prog :: args =>
          match ExecUtils.runOrThrow env prog args with
          | Except.ok _ =>
              let r := runCommandList env worktreePath rest
              (r.fst, Action.execCommand prog args worktreePath :: r.snd)
          | Except.error e =>
              (Except.error e.message,
               [Action.execCommand prog args worktreePath])

/-- BaseCommand.executePostCommands: the groups run strictly in order and a
failing group aborts the rest. -/
def runGroups (env : Env) (worktreePath : String) :
    List PostCommand → Except String Unit × List Action
  | [] => (Except.ok (), [])
  | pc :: rest =>
      match runCommandList env worktreePath pc.commands with
      | (Except.ok _, acts) =>
          let r := runGroups env worktreePath rest
          (r.fst, acts ++ r.snd)
      | (Except.error m, acts) => (Except.error m, acts)

def executePostCommands (env : Env) (cfg : Config) (worktreePath : String) :
    Except String Unit × List Action :=
  if cfg.postCommands.isEmpty then (Except.ok (), [])
  else runGroups env worktreePath cfg.postCommands

structure NewOptions where
  branch : Option String := none
  noPush : Bool := false
  dryRun : Bool := false

structure RemoveOptions where
  force : Bool := false
  dryRun : Bool := false

structure MROptions where
  checkout : Bool := false
  dryRun : Bool := false

/-- NewCommand.execute. -/
def newExecute (c : Collab) (cwd name : String) (opts : NewOptions) :
    Except String Unit × List Action :=
  if !c.isGitRepo then (Except.error "Not in a git repository", [])
  else
    let cfg := c.loadedConfig
    match generateWorktreeNameB c name with
    | Except.error m => (Except.error m, [])
    | Except.ok worktreeName =>
        let worktreePath :=
          GitWorktreeManager.resolveWorktreePath cwd cfg.worktreeDir worktreeName
        match c.worktreeExistsAt worktreePath with
        | Except.error e => (Except.error e.message, [])
        | Except.ok true =>
            (Except.error ("Worktree already exists at: " ++ worktreePath), [])
        | Except.ok false =>
            let branchName := opts.branch.getD worktreeName
            if c.branchExistsQ branchName then
              (Except.error ("Branch " ++ branchName ++ " already exists"), [])
            else if opts.dryRun then
              -- dry run mode: print the plan, return
              (Except.ok (), [])
            else
              match c.createWorktreeR with
              | Except.error e =>
                  (Except.error e.message,
                   [Action.createWorktree worktreePath branchName true false true])
              | Except.ok _ =>
                  let created :=
                    [Action.createWorktree worktreePath branchName true false true]
                  let post :=
                    if cfg.postCommands.isEmpty then (Except.ok (), [])
                    else executePostCommands c.execEnv cfg worktreePath
                  match post with
                  | (Except.error m, acts) => (Except.error m, created ++ acts)
                  | (Except.ok _, acts) =>
                      -- push the new branch unless disabled; a push failure
                      -- is caught and only warned about
                      let pushActs :=
                        if !opts.noPush then
                          [Action.execCommand "git"
                            ["push", "-u", "origin", branchName] worktreePath]
                        else []
                      (Except.ok (), created ++ acts ++ pushActs)

/-- RemoveCommand.execute. -/
def removeExecute (c : Collab) (cwd name : String) (opts : RemoveOptions) :
    Except String Unit × List Action :=
  if !c.isGitRepo then (Except.error "Not in a git repository", [])
  else
    match generateWorktreeNameB c name with
    | Except.error m => (Except.error m, [])
    | Except.ok worktreeName =>
        match c.findByName worktreeName with
        | Except.error e => (Except.error e.message, [])
        | Except.ok found1 =>
            match
              (match found1 with
               | some wt => Except.ok (some wt)
               | none => c.findByName name)
            with
            | Except.error e => (Except.error e.message, [])
            | Except.ok none =>
                -- the source lists the available worktrees for the
                -- diagnostic, then throws
                match c.listWT with
                | Except.error e => (Except.error e.message, [])
                | Except.ok _ =>
                    (Except.error ("Worktree " ++ name ++ " not found"), [])
            | Except.ok (some wt) =>
                if opts.dryRun then
                  -- dry run mode: print what would be removed, return
                  (Except.ok (), [])
                else if !opts.force && !c.confirmRemoval then
                  (Except.ok (), [])
                else
                  match c.removeWorktreeR with
                  | Except.error e =>
                      (Except.error e.message,
                       [Action.removeWorktree wt.path opts.force])
                  | Except.ok _ =>
                      let removed := [Action.removeWorktree wt.path opts.force]
                      -- branch deletion is prompted only without force; its
                      -- failures are caught and only logged
                      let delActs :=
                        if !opts.force && c.confirmDeleteBranch then
                          match wt.branch with
                          | some b =>
                              [Action.execCommand "git" ["branch", "-D", b] cwd,
                               Action.execCommand "git"
                                 ["push", "origin", "--delete", b] cwd]
                          | none => []
                        else []
                      (Except.ok (), removed ++ delActs)

/-- MRCommand.execute.  generateWorktreeName of the manager fetches the
merge request a second time. -/
def mrExecute (c : Collab) (cwd : String) (iid : Int) (opts : MROptions) :
    Except String Unit × List Action :=
  if !c.isGitRepo then (Except.error "Not in a git repository", [])
  else if iid ≤ 0 then
    (Except.error ("Invalid merge request number: " ++ toString iid), [])
  else if !c.glabProject then
    (Except.error "Not in a GitLab project or glab CLI not available", [])
  else
    match c.getMR iid with
    | Except.error e => (Except.error e.message, [])
    | Except.ok mr =>
        match c.getMR iid with
        | Except.error e => (Except.error e.message, [])
        | Except.ok mr2 =>
            let baseName :=
              sanitizeWorktreeName mr2.source_branch ("mr-" ++ toString iid)
            match generateWorktreeNameB c baseName with
            | Except.error m => (Except.error m, [])
            | Except.ok worktreeName =>
                let worktreePath :=
                  GitWorktreeManager.resolveWorktreePath cwd
                    c.loadedConfig.worktreeDir worktreeName
                match c.worktreeExistsAt worktreePath with
                | Except.error e => (Except.error e.message, [])
                | Except.ok true =>
                    if opts.checkout then
                      -- switching to the existing worktree is a stub in the
                      -- source: it reports success and does nothing
                      (Except.ok (), [])
                    else
                      (Except.error
                        ("Worktree already exists at: " ++ worktreePath), [])
                | Except.ok false =>
                    if opts.dryRun then
                      -- dry run mode: print the plan, return
                      (Except.ok (), [])
                    else
                      match c.fetchMRBranchR with
                      | Except.error e =>
                          (Except.error e.message,
                           [Action.fetchMergeRequestBranch iid])
                      | Except.ok _ =>
                          let fetched := [Action.fetchMergeRequestBranch iid]
                          match c.createWorktreeR with
                          | Except.error e =>
                              (Except.error e.message,
                               fetched ++ [Action.createWorktree worktreePath
                                 mr.source_branch false false true])
                          | Except.ok _ =>
                              let created :=
                                fetched ++ [Action.createWorktree worktreePath
                                  mr.source_branch false false true]
                              let post :=
                                if c.loadedConfig.postCommands.isEmpty then
                                  (Except.ok (), [])
                                else
                                  executePostCommands c.execEnv c.loadedConfig
                                    worktreePath
                              match post with
                              | (Except.error m, acts) =>
                                  (Except.error m, created ++ acts)
                              | (Except.ok _, acts) =>
                                  (Except.ok (), created ++ acts)

end Commands

/-! ## Specification-side definitions

These definitions follow the words of the specification, for comparison
with the embeddings above. -/

/-- Modelled from the spec: the SSH URL shape user@host:[group/]name[.git]. -/
def sshShapeUrl (user host : String) (group : Option String) (name : String)
    (gitSuffix : Bool) : String :=
  user ++ "@" ++ host ++ ":"
    ++ (match group with | some g => g ++ "/" | none => "")
    ++ name ++ (if gitSuffix then ".git" else "")

/-- Modelled from the spec: the HTTP(S) URL shape
scheme://host/[group/]name[.git][/]. -/
def httpShapeUrl (secure : Bool) (host : String) (group : Option String)
    (name : String) (gitSuffix trailingSlash : Bool) : String :=
  (if secure then "https" else "http") ++ "://" ++ host ++ "/"
    ++ (match group with | some g => g ++ "/" | none => "")
    ++ name ++ (if gitSuffix then ".git" else "")
    ++ (if trailingSlash then "/" else "")

/-- The character class of the sanitization step, written as the spec words
it: letters, digits, underscore and dash. -/
def specAllowedChar (c : Char) : Bool :=
  decide (('A' ≤ c ∧ c ≤ 'Z') ∨ ('a' ≤ c ∧ c ≤ 'z') ∨ ('0' ≤ c ∧ c ≤ '9')
    ∨ c = '_' ∨ c = '-')

/-- Collapsing dash runs, written as a right fold that keeps a dash only
when the collapsed rest does not already start with one. -/
def specCollapse (l : List Char) : List Char :=
  l.foldr (fun c acc => if c = '-' ∧ acc.headD ' ' = '-' then acc else c :: acc) []

/-- The sanitization pipeline as the spec words it. -/
def specSanitize (branch fallback : String) : String :=
  let step1 := branch.toList.map (fun c => if specAllowedChar c then c else '-')
  let step2 := specCollapse step1
  let step3 := stripDashes step2
  if step3.length < 2 then fallback else String.mk step3

/-- A porcelain listing block: the path of its marker line and the attribute
lines up to the next marker. -/
structure WTBlock where
  path : List Char
  attrs : List (List Char)

/-- The text lines of a block. -/
def blockLines (b : WTBlock) : List (List Char) :=
  ("worktree ".toList ++ b.path) :: b.attrs

/-- Field assignment by one attribute line, exactly the non-marker branches
of the listing loop. -/
def applyAttr (cur : GitWorktreeManager.PartialWT) (line : List Char) :
    GitWorktreeManager.PartialWT :=
  if "HEAD ".toList.isPrefixOf line then
    { cur with commit := some (String.mk (line.drop 5)) }
  else if "branch ".toList.isPrefixOf line then
    { cur with branch := some (String.mk (line.drop 7)) }
  else if line = "bare".toList then
    { cur with bare := true }
  else if line = "detached".toList then
    { cur with detached := true }
  else cur

/-- The record a block denotes: its fields are drawn only from its own
attribute lines. -/
def blockRecord (b : WTBlock) : GitWorktree :=
  let f := b.attrs.foldl applyAttr {}
  { path := String.mk b.path, commit := f.commit, branch := f.branch,
    bare := f.bare, detached := f.detached }

/-! ## Concrete environments used in counterexamples and witnesses -/

/-- An execution environment in which the which command exits non-zero for
every lookup (no hosting CLI binary is resolvable) while everything else
succeeds. -/
def whichAbsentEnv : Env := fun command _ =>
  if command = "which" then { stdout := "", stderr := "", exitCode := 1 }
  else { stdout := "", stderr := "", exitCode := 0 }

/-- An execution environment in which every git invocation fails. -/
def gitFailingEnv : Env := fun _ _ =>
  { stdout := "", stderr := "fatal: not a git repository", exitCode := 1 }

/-- An execution environment in which every invocation succeeds with empty
output. -/
def allOkEnv : Env := fun _ _ =>
  { stdout := "", stderr := "", exitCode := 0 }

/-- A collaborator record in which every query succeeds. -/
def sampleCollab : Commands.Collab :=
  { loadedConfig := ConfigManager.defaultConfig
    isGitRepo := true
    remotePrefix := Except.ok ""
    worktreeExistsAt := fun _ => Except.ok false
    branchExistsQ := fun _ => false
    findByName := fun _ =>
      Except.ok (some { path := "/w/x", commit := none, branch := some "b",
                        bare := false, detached := false })
    listWT := Except.ok []
    glabProject := true
    getMR := fun i =>
      Except.ok { iid := i, title := "t", source_branch := "br",
                  target_branch := "main", state := "opened", web_url := "u" }
    confirmRemoval := true
    confirmDeleteBranch := false
    createWorktreeR := Except.ok ()
    removeWorktreeR := Except.ok ()
    fetchMRBranchR := Except.ok ()
    execEnv := allOkEnv }

/-- The group part of a URL shape. -/
def grpPart : Option (List Char) → List Char
  | some g => g ++ ['/']
  | none => []

/-- The lines of a sequence of porcelain blocks. -/
def linesOfBlocks : List WTBlock → List (List Char)
  | [] => []
  | b :: bs => blockLines b ++ linesOfBlocks bs

/-! # Theorems -/

/-! ## C1: configuration merge -/

/-- C1: for every global configuration and every local configuration whose
postCommands is a non-empty list, the merged configuration has postCommands
exactly equal to the local list, regardless of the global value
(replacement, not concatenation); the scalar fields layer default, then
global, then local: a local configuration overrides the three always
present fields, manualPrefix falls back through the layers when absent, a
global configuration alone is the whole merge, and no configuration at all
yields the defaults. -/
theorem C1_merge_postCommands_replacement
    (g : Option Config) (l : Config) (h : l.postCommands ≠ []) :
    (ConfigManager.mergeConfigs g (some l)).postCommands = l.postCommands
    ∧ (ConfigManager.mergeConfigs g (some l)).prefixType = l.prefixType
    ∧ (ConfigManager.mergeConfigs g (some l)).worktreeDir = l.worktreeDir
    ∧ (ConfigManager.mergeConfigs g (some l)).manualPrefix
        = l.manualPrefix.orElse
            (fun _ => (ConfigManager.mergeConfigs g none).manualPrefix)
    ∧ ConfigManager.mergeConfigs none none = ConfigManager.defaultConfig
    ∧ (∀ g0 : Config, ConfigManager.mergeConfigs (some g0) none = g0) := by
  refine ⟨?_, ?_, ?_, ?_, rfl, ?_⟩
  · cases g <;> rfl
  · cases g <;> rfl
  · cases g <;> rfl
  · cases g <;> rfl
  · intro g0
    show ({ prefixType := g0.prefixType
            manualPrefix := g0.manualPrefix.orElse (fun _ => none)
            worktreeDir := g0.worktreeDir
            postCommands := g0.postCommands } : Config) = g0
    cases hg : g0.manualPrefix <;> simp [hg] <;> cases g0 <;> simp_all

/-- Witness for C1 at a concrete pair of configurations. -/
theorem C1_witness :
    (ConfigManager.mergeConfigs
        (some { prefixType := PrefixType.detect, manualPrefix := some "g-",
                worktreeDir := "/g", postCommands := [{ label := "G", commands := ["a"] }] })
        (some { prefixType := PrefixType.manual, manualPrefix := none,
                worktreeDir := "/l", postCommands := [{ label := "L", commands := ["b"] }] })
      ).postCommands = [{ label := "L", commands := ["b"] }] :=
  (C1_merge_postCommands_replacement
    (some { prefixType := PrefixType.detect, manualPrefix := some "g-",
            worktreeDir := "/g", postCommands := [{ label := "G", commands := ["a"] }] })
    { prefixType := PrefixType.manual, manualPrefix := none,
      worktreeDir := "/l", postCommands := [{ label := "L", commands := ["b"] }] }
    (by decide)).1

/-! ## C2: loading an invalid configuration file -/

/-- C2 counterexample: with a present local file whose content does not
validate against the schema (and no global file), load succeeds with the
defaults instead of failing with ConfigError. -/
theorem C2_counterexample_invalid_local_loads :
    ConfigManager.loadConfig ConfigManager.initialState
        { localFile := ConfigManager.FileContent.invalid,
          globalFile := ConfigManager.FileContent.missing }
      = Except.ok (ConfigManager.defaultConfig,
          { localConfig := none, globalConfig := none,
            mergedConfig := some ConfigManager.defaultConfig }) := rfl

/-- C2 (amended): load never fails with ConfigError; a present file whose
content does not validate is swallowed by the loader (debug log only) and
behaves exactly like a missing file, contributing only defaults to the
merged result. -/
theorem C2_load_swallows_invalid (st : ConfigManager.ManagerState)
    (fs : ConfigManager.FS) (h : st.mergedConfig = none) :
    ConfigManager.loadConfig st fs
      = Except.ok
          (ConfigManager.mergeConfigs
              (ConfigManager.loadGlobalConfig fs.globalFile)
              (ConfigManager.loadLocalConfig fs.localFile),
           { localConfig := ConfigManager.loadLocalConfig fs.localFile,
             globalConfig := ConfigManager.loadGlobalConfig fs.globalFile,
             mergedConfig := some (ConfigManager.mergeConfigs
                 (ConfigManager.loadGlobalConfig fs.globalFile)
                 (ConfigManager.loadLocalConfig fs.localFile)) })
    ∧ ConfigManager.loadLocalConfig ConfigManager.FileContent.invalid
        = ConfigManager.loadLocalConfig ConfigManager.FileContent.missing
    ∧ ConfigManager.loadGlobalConfig ConfigManager.FileContent.invalid
        = ConfigManager.loadGlobalConfig ConfigManager.FileContent.missing := by
  refine ⟨?_, rfl, rfl⟩
  unfold ConfigManager.loadConfig
  rw [h]

/-- Witness for C2 at a concrete state and filesystem. -/
theorem C2_witness :
    ConfigManager.loadConfig ConfigManager.initialState
        { localFile := ConfigManager.FileContent.invalid,
          globalFile := ConfigManager.FileContent.invalid }
      = Except.ok (ConfigManager.defaultConfig,
          { localConfig := none, globalConfig := none,
            mergedConfig := some ConfigManager.defaultConfig }) :=
  (C2_load_swallows_invalid ConfigManager.initialState
    { localFile := ConfigManager.FileContent.invalid,
      globalFile := ConfigManager.FileContent.invalid } rfl).1

/-! ## C6: hosting CLI availability -/

/-- C6 (code bug): the exists check of ExecUtils relies on run raising on
failure, but run converts every failure into a captured result, so exists
returns true for every environment; in particular isGlabAvailable and
isGhAvailable report true in an environment where the which lookup exits
non-zero because the binary is absent, contradicting the documented
behaviour. -/
theorem C6_isAvailable_always_true :
    (∀ (env : Env) (command : String), ExecUtils.existsCmd env command = true)
    ∧ whichAbsentEnv "which" ["glab"]
        = { stdout := "", stderr := "", exitCode := 1 }
    ∧ GitLabManager.isGlabAvailable whichAbsentEnv = true
    ∧ GitHubManager.isGhAvailable whichAbsentEnv = true :=
  ⟨fun _ _ => rfl, rfl, rfl, rfl⟩

/-! ## C9: removal failure propagation -/

/-- C9: whenever the worktree removal command exits non-zero, removeWorktree
raises a GitError wrapping the original failure, even when force was given
and the fallback (recursive deletion plus prune) runs and succeeds; a
fallback failure only sets the warning flag, and the error component never
depends on the fallback outcome. -/
theorem C9_removeWorktree_propagates (w : GitWorktreeManager.RemoveWorld)
    (path : String) (force : Bool) (h : w.removeResult.exitCode ≠ 0) :
    (GitWorktreeManager.removeWorktree w path force).fst
      = Except.error
          { message := "Failed to remove worktree: Command failed: git "
              ++ " ".intercalate (GitWorktreeManager.removeArgs path force)
              ++ "\n" ++ w.removeResult.stderr }
    ∧ (GitWorktreeManager.removeWorktree w path force).snd
        = (force && w.pathStillExists && !w.rmOk) := by
  unfold GitWorktreeManager.removeWorktree
  simp only [if_pos h]
  refine ⟨rfl, ?_⟩
  cases force <;> cases hpe : w.pathStillExists <;> cases hrm : w.rmOk <;>
    simp [hpe, hrm]

/-- Witness for C9 at a concrete failing removal. -/
theorem C9_witness :
    (GitWorktreeManager.removeWorktree
        { removeResult := { stdout := "", stderr := "boom", exitCode := 1 },
          pathStillExists := true, rmOk := false,
          pruneResult := { stdout := "", stderr := "", exitCode := 0 } }
        "/w/x" true).fst
      = Except.error
          { message := "Failed to remove worktree: Command failed: git "
              ++ " ".intercalate (GitWorktreeManager.removeArgs "/w/x" true)
              ++ "\n" ++ "boom" }
    ∧ (GitWorktreeManager.removeWorktree
        { removeResult := { stdout := "", stderr := "boom", exitCode := 1 },
          pathStillExists := true, rmOk := false,
          pruneResult := { stdout := "", stderr := "", exitCode := 0 } }
        "/w/x" true).snd = true :=
  C9_removeWorktree_propagates
    { removeResult := { stdout := "", stderr := "boom", exitCode := 1 },
      pathStillExists := true, rmOk := false,
      pruneResult := { stdout := "", stderr := "", exitCode := 0 } }
    "/w/x" true (by decide)

/-! ## C4: worktree name derivation -/

theorem specCollapse_cons (b : Char) (t : List Char) :
    specCollapse (b :: t) =
      if b = '-' ∧ (specCollapse t).headD ' ' = '-' then specCollapse t
      else b :: specCollapse t := rfl

theorem specCollapse_head (b : Char) (t : List Char) :
    (specCollapse (b :: t)).headD ' ' = b ∧ specCollapse (b :: t) ≠ [] := by
  rw [specCollapse_cons]
  by_cases h : b = '-' ∧ (specCollapse t).headD ' ' = '-'
  · rw [if_pos h]
    refine ⟨by rw [h.2, h.1], ?_⟩
    intro hnil
    rw [hnil] at h
    exact absurd h.2 (by decide)
  · rw [if_neg h]
    exact ⟨rfl, by simp⟩

theorem collapseDashes_eq_spec (l : List Char) :
    collapseDashes l = specCollapse l := by
  induction l with
  | nil => rfl
  | cons a t ih =>
    cases t with
    | nil =>
      show [a] = _
      rw [specCollapse_cons,
        if_neg (by rintro ⟨-, h2⟩; exact absurd h2 (by decide))]
      rfl
    | cons b t2 =>
      rw [specCollapse_cons a (b :: t2), ← ih]
      have hh : (collapseDashes (b :: t2)).headD ' ' = b := by
        rw [ih]; exact (specCollapse_head b t2).1
      show (if a = '-' ∧ b = '-' then collapseDashes (b :: t2)
            else a :: collapseDashes (b :: t2)) = _
      by_cases hab : a = '-' ∧ b = '-'
      · rw [if_pos hab, if_pos ⟨hab.1, by rw [hh, hab.2]⟩, ih]
      · rw [if_neg hab,
          if_neg (by rintro ⟨h1, h2⟩; rw [hh] at h2; exact hab ⟨h1, h2⟩), ih]

theorem isBranchChar_eq_spec (c : Char) : isBranchChar c = specAllowedChar c := by
  unfold isBranchChar specAllowedChar Char.isAlphanum Char.isAlpha Char.isDigit
    Char.isUpper Char.isLower
  rw [Bool.eq_iff_iff]
  simp only [Bool.or_eq_true, Bool.and_eq_true, decide_eq_true_eq, beq_iff_eq,
    ge_iff_le, Char.le_def]
  constructor
  · rintro ((((⟨h1, h2⟩ | ⟨h1, h2⟩) | ⟨h1, h2⟩) | h) | h) <;> subst_vars <;> simp_all
  · rintro (⟨h1, h2⟩ | ⟨h1, h2⟩ | ⟨h1, h2⟩ | h | h) <;> subst_vars <;> simp_all

/-- C4: deriveWorktreeName is the sanitize-collapse-strip pipeline with the
documented numeric fallback: the embedded pipeline coincides pointwise with
the pipeline as the spec words it; the claimed examples hold for every id
(a source branch feature/ABC-123_fix!! yields feature-ABC-123_fix, and one
sanitizing below two characters yields the provider fallback); and both
hosting managers apply exactly this pipeline to the source branch with
their respective mr- and pr- fallbacks. -/
theorem C4_deriveWorktreeName (iid : Int) :
    (∀ branch fallback,
        sanitizeWorktreeName branch fallback = specSanitize branch fallback)
    ∧ sanitizeWorktreeName "feature/ABC-123_fix!!" ("mr-" ++ toString iid)
        = "feature-ABC-123_fix"
    ∧ sanitizeWorktreeName "!" ("mr-" ++ toString iid) = "mr-" ++ toString iid
    ∧ sanitizeWorktreeName "!" ("pr-" ++ toString iid) = "pr-" ++ toString iid
    ∧ (∀ env pj mr, GitLabManager.getMergeRequest env pj iid = Except.ok mr →
        GitLabManager.generateWorktreeName env pj iid
          = Except.ok (sanitizeWorktreeName mr.source_branch
              ("mr-" ++ toString iid)))
    ∧ (∀ env pj pr, GitHubManager.getPullRequest env pj iid = Except.ok pr →
        GitHubManager.generateWorktreeName env pj iid
          = Except.ok (sanitizeWorktreeName pr.headRefName
              ("pr-" ++ toString iid))) := by
  refine ⟨?_, rfl, rfl, rfl, ?_, ?_⟩
  · intro branch fallback
    unfold sanitizeWorktreeName specSanitize
    simp only [collapseDashes_eq_spec]
    have harg : (fun c => if isBranchChar c = true then c else '-')
        = (fun c => if specAllowedChar c = true then c else '-') := by
      funext c
      rw [isBranchChar_eq_spec]
    rw [harg]
  · intro env pj mr h
    simp [GitLabManager.generateWorktreeName, h]
  · intro env pj pr h
    simp [GitHubManager.generateWorktreeName, h]

/-- Witness for C4 at a concrete id and a concrete merge request. -/
theorem C4_witness :
    sanitizeWorktreeName "feature/ABC-123_fix!!" ("mr-" ++ toString (42 : Int))
        = "feature-ABC-123_fix"
    ∧ sanitizeWorktreeName "!" ("mr-" ++ toString (42 : Int))
        = "mr-" ++ toString (42 : Int)
    ∧ GitLabManager.generateWorktreeName allOkEnv
        (fun _ => some { iid := 42, title := "t",
                         source_branch := "feature/ABC-123_fix!!",
                         target_branch := "main", state := "opened",
                         web_url := "u" }) 42
        = Except.ok (sanitizeWorktreeName "feature/ABC-123_fix!!"
            ("mr-" ++ toString (42 : Int))) := by
  have h := C4_deriveWorktreeName 42
  exact ⟨h.2.1, h.2.2.1,
    h.2.2.2.2.1 allOkEnv
      (fun _ => some { iid := 42, title := "t",
                       source_branch := "feature/ABC-123_fix!!",
                       target_branch := "main", state := "opened",
                       web_url := "u" })
      { iid := 42, title := "t", source_branch := "feature/ABC-123_fix!!",
        target_branch := "main", state := "opened", web_url := "u" } rfl⟩

/-! ## C5: existence checks and error swallowing -/

/-- C5 counterexample: worktreeExists raises a GitError when the listing
command fails instead of returning false. -/
theorem C5_counterexample_worktreeExists_raises :
    GitWorktreeManager.worktreeExists gitFailingEnv "/repo" "/worktrees/x"
      = Except.error
          { message := "Failed to list worktrees: Command failed: git worktree list --porcelain\nfatal: not a git repository" } := rfl

/-- C5 (amended): branchExists, remoteBranchExists and the hosting exists
checks swallow the underlying failure and return false when the underlying
command exits non-zero; worktreeExists however propagates a GitError when
the underlying listing command exits non-zero. -/
theorem C5_existence_checks (env : Env) (name remote cwd p : String)
    (pj : String → Option GitLabMR) (pj2 : String → Option GitHubPR)
    (iid : Int) :
    ((env "git" ["show-ref", "--verify", "--quiet",
        "refs/heads/" ++ name]).exitCode ≠ 0 →
        GitRemoteManager.branchExists env name = false)
    ∧ ((env "git" ["show-ref", "--verify", "--quiet",
          "refs/remotes/" ++ remote ++ "/" ++ name]).exitCode ≠ 0 →
        GitRemoteManager.remoteBranchExists env name remote = false)
    ∧ ((env "glab" ["mr", "view", toString iid, "--output", "json"]).exitCode ≠ 0 →
        GitLabManager.mergeRequestExists env pj iid = false)
    ∧ ((env "gh" ["pr", "view", toString iid, "--json",
          "number,title,headRefName,baseRefName,state,url"]).exitCode ≠ 0 →
        GitHubManager.pullRequestExists env pj2 iid = false)
    ∧ ((env "git" ["worktree", "list", "--porcelain"]).exitCode ≠ 0 →
        ∃ e, GitWorktreeManager.worktreeExists env cwd p = Except.error e) := by
  refine ⟨?_, ?_, ?_, ?_, ?_⟩
  · intro h
    simp [GitRemoteManager.branchExists, ExecUtils.runOrThrow, ExecUtils.run, h]
  · intro h
    simp [GitRemoteManager.remoteBranchExists, ExecUtils.runOrThrow,
      ExecUtils.run, h]
  · intro h
    simp [GitLabManager.mergeRequestExists, GitLabManager.getMergeRequest,
      GitLabManager.isGlabAvailable, ExecUtils.existsCmd,
      ExecUtils.runOrThrow, ExecUtils.run, h]
  · intro h
    simp [GitHubManager.pullRequestExists, GitHubManager.getPullRequest,
      GitHubManager.isGhAvailable, ExecUtils.existsCmd,
      ExecUtils.runOrThrow, ExecUtils.run, h]
  · intro h
    simp only [GitWorktreeManager.worktreeExists,
      GitWorktreeManager.listWorktrees, ExecUtils.runOrThrow, ExecUtils.run,
      if_pos h]
    exact ⟨_, rfl⟩

/-- Witness for C5 in an environment where every git command fails. -/
theorem C5_witness :
    GitRemoteManager.branchExists gitFailingEnv "main" = false
    ∧ GitLabManager.mergeRequestExists gitFailingEnv (fun _ => none) 3 = false
    ∧ (∃ e, GitWorktreeManager.worktreeExists gitFailingEnv "/repo" "x"
        = Except.error e) := by
  have h := C5_existence_checks gitFailingEnv "main" "origin" "/repo" "x"
    (fun _ => none) (fun _ => none) 3
  exact ⟨h.1 (by decide), h.2.2.1 (by decide), h.2.2.2.2 (by decide)⟩

/-! ## C8: save and load round trip -/

/-- C8 counterexample: after loading a configuration whose global file sets
manualPrefix, saving a local configuration that omits manualPrefix and
loading again yields the global manualPrefix, not the saved configuration
merged with the documented defaults (which leave manualPrefix absent). -/
theorem C8_counterexample_manualPrefix_leaks :
    (let gcfg : Config := { prefixType := PrefixType.noPrefix,
                            manualPrefix := some "g-",
                            worktreeDir := "../worktrees", postCommands := [] }
     let fs0 : ConfigManager.FS :=
       { localFile := ConfigManager.FileContent.missing,
         globalFile := ConfigManager.FileContent.valid gcfg }
     let st1 : ConfigManager.ManagerState :=
       { localConfig := none, globalConfig := some gcfg,
         mergedConfig := some gcfg }
     let r := ConfigManager.saveLocalConfig st1 fs0 {}
     ConfigManager.loadConfig ConfigManager.initialState fs0
         = Except.ok (gcfg, st1)
     ∧ ConfigManager.loadConfig r.snd r.fst
         = Except.ok ({ prefixType := PrefixType.noPrefix,
                        manualPrefix := some "g-",
                        worktreeDir := "../worktrees", postCommands := [] },
                      r.snd)
     ∧ fillDefaults {} = { prefixType := PrefixType.noPrefix,
                           manualPrefix := none,
                           worktreeDir := "../worktrees", postCommands := [] }
     ∧ ({ prefixType := PrefixType.noPrefix, manualPrefix := some "g-",
          worktreeDir := "../worktrees", postCommands := [] } : Config)
         ≠ fillDefaults {}) :=
  ⟨rfl, rfl, rfl, by decide⟩

/-- C8 (amended): saveLocal followed by loadConfig returns the saved value
merged with the documented defaults for every omitted field, provided the
saved value defines manualPrefix or the cached global configuration does
not; otherwise the global manualPrefix shows through the merge. -/
theorem C8_saveLocal_loadConfig_roundtrip (st : ConfigManager.ManagerState)
    (fs : ConfigManager.FS) (p : PartialConfig)
    (h : p.manualPrefix ≠ none
        ∨ ∀ g, st.globalConfig = some g → g.manualPrefix = none) :
    ConfigManager.loadConfig (ConfigManager.saveLocalConfig st fs p).snd
        (ConfigManager.saveLocalConfig st fs p).fst
      = Except.ok (fillDefaults p,
          (ConfigManager.saveLocalConfig st fs p).snd) := by
  unfold ConfigManager.saveLocalConfig ConfigManager.loadConfig
  have hm : ConfigManager.mergeConfigs st.globalConfig (some (fillDefaults p))
      = fillDefaults p := by
    unfold ConfigManager.mergeConfigs fillDefaults
    cases hmp : p.manualPrefix with
    | some s => simp [hmp, Option.orElse]
    | none =>
      cases hg : st.globalConfig with
      | none => simp [hmp, Option.orElse, ConfigManager.defaultConfig]
      | some g =>
        have hgm : g.manualPrefix = none := by
          cases h with
          | inl h1 => exact absurd hmp h1
          | inr h2 => exact h2 g hg
        simp [hmp, hg, hgm, Option.orElse, ConfigManager.defaultConfig]
  simp only []
  rw [hm]

/-- Witness for C8 at a fresh manager saving an empty partial value. -/
theorem C8_witness :
    ConfigManager.loadConfig
        (ConfigManager.saveLocalConfig ConfigManager.initialState
          { localFile := ConfigManager.FileContent.missing,
            globalFile := ConfigManager.FileContent.missing } {}).snd
        (ConfigManager.saveLocalConfig ConfigManager.initialState
          { localFile := ConfigManager.FileContent.missing,
            globalFile := ConfigManager.FileContent.missing } {}).fst
      = Except.ok (fillDefaults {},
          (ConfigManager.saveLocalConfig ConfigManager.initialState
            { localFile := ConfigManager.FileContent.missing,
              globalFile := ConfigManager.FileContent.missing } {}).snd) :=
  C8_saveLocal_loadConfig_roundtrip ConfigManager.initialState
    { localFile := ConfigManager.FileContent.missing,
      globalFile := ConfigManager.FileContent.missing } {}
    (Or.inr (fun g hg => Option.noConfusion hg))

/-! ## C7: porcelain listing parser -/

theorem applyAttr_path (cur : GitWorktreeManager.PartialWT) (line : List Char) :
    (applyAttr cur line).path = cur.path := by
  unfold applyAttr
  split_ifs <;> rfl

theorem stepLine_attr (cur : GitWorktreeManager.PartialWT) (line : List Char)
    (h : "worktree ".toList.isPrefixOf line = false) :
    GitWorktreeManager.stepLine cur line = (none, applyAttr cur line) := by
  have h2 : ¬("worktree ".toList <+: line) := by
    rw [← List.isPrefixOf_iff_prefix, h]
    exact Bool.false_ne_true
  unfold GitWorktreeManager.stepLine applyAttr
  rw [if_neg (by rw [List.isPrefixOf_iff_prefix]; exact h2)]
  split_ifs <;> rfl

theorem applyAttr_setPath (cur : GitWorktreeManager.PartialWT)
    (s : Option String) (line : List Char) :
    applyAttr { cur with path := s } line = { applyAttr cur line with path := s } := by
  unfold applyAttr
  split_ifs <;> rfl

theorem foldl_applyAttr_setPath (attrs : List (List Char))
    (cur : GitWorktreeManager.PartialWT) (s : Option String) :
    attrs.foldl applyAttr { cur with path := s }
      = { attrs.foldl applyAttr cur with path := s } := by
  induction attrs generalizing cur with
  | nil => rfl
  | cons a t ih =>
    simp only [List.foldl_cons, applyAttr_setPath, ih]

theorem parse_go_attrs (attrs : List (List Char))
    (cur : GitWorktreeManager.PartialWT) (rest : List (List Char))
    (h : ∀ l ∈ attrs, "worktree ".toList.isPrefixOf l = false) :
    GitWorktreeManager.parseLinesGo cur (attrs ++ rest)
      = GitWorktreeManager.parseLinesGo (attrs.foldl applyAttr cur) rest := by
  induction attrs generalizing cur with
  | nil => rfl
  | cons a t ih =>
    have ha := h a (List.mem_cons_self a t)
    simp only [List.cons_append, List.foldl_cons]
    show (match GitWorktreeManager.stepLine cur a with
      | (some r, cur2) =>
          r :: GitWorktreeManager.parseLinesGo cur2 (t ++ rest)
      | (none, cur2) => GitWorktreeManager.parseLinesGo cur2 (t ++ rest)) = _
    rw [stepLine_attr cur a ha]
    exact ih (applyAttr cur a) (fun l hl => h l (List.mem_cons_of_mem a hl))

theorem finishRecord_block (b : WTBlock) (hb : b.path ≠ []) :
    GitWorktreeManager.finishRecord
        (b.attrs.foldl applyAttr { path := some (String.mk b.path) })
      = some (blockRecord b) := by
  have hp : ({ path := some (String.mk b.path) } : GitWorktreeManager.PartialWT)
      = { ({} : GitWorktreeManager.PartialWT) with path := some (String.mk b.path) } := rfl
  have hne : String.mk b.path ≠ "" := by
    intro he
    apply hb
    have hd : (String.mk b.path).data = ("" : String).data := by rw [he]
    simpa using hd
  rw [hp, foldl_applyAttr_setPath]
  unfold GitWorktreeManager.finishRecord blockRecord
  simp only []
  rw [if_neg hne]

theorem drop9_marker (p : List Char) :
    ("worktree ".toList ++ p).drop 9 = p := by
  have h9 : ("worktree ".toList).length = 9 := rfl
  rw [← h9, List.drop_left]

theorem stepLine_marker (cur : GitWorktreeManager.PartialWT) (p : List Char) :
    GitWorktreeManager.stepLine cur ("worktree ".toList ++ p)
      = (GitWorktreeManager.finishRecord cur, { path := some (String.mk p) }) := by
  unfold GitWorktreeManager.stepLine
  rw [if_pos, drop9_marker]
  rw [List.isPrefixOf_iff_prefix]
  exact ⟨p, rfl⟩

theorem parse_go_blocks (blocks : List WTBlock)
    (cur : GitWorktreeManager.PartialWT)
    (h : ∀ b ∈ blocks, b.path ≠ []
        ∧ ∀ l ∈ b.attrs, "worktree ".toList.isPrefixOf l = false) :
    GitWorktreeManager.parseLinesGo cur (linesOfBlocks blocks)
      = (GitWorktreeManager.finishRecord cur).toList
          ++ blocks.map blockRecord := by
  induction blocks generalizing cur with
  | nil =>
    show (match GitWorktreeManager.finishRecord cur with
          | some r => [r]
          | none => []) = (GitWorktreeManager.finishRecord cur).toList ++ []
    cases GitWorktreeManager.finishRecord cur <;> rfl
  | cons b bs ih =>
    have hb := h b (List.mem_cons_self b bs)
    show GitWorktreeManager.parseLinesGo cur
        ((("worktree ".toList ++ b.path) :: b.attrs) ++ linesOfBlocks bs) = _
    simp only [List.cons_append]
    show (match GitWorktreeManager.stepLine cur ("worktree ".toList ++ b.path) with
      | (some r, cur2) =>
          r :: GitWorktreeManager.parseLinesGo cur2 (b.attrs ++ linesOfBlocks bs)
      | (none, cur2) =>
          GitWorktreeManager.parseLinesGo cur2 (b.attrs ++ linesOfBlocks bs)) = _
    rw [stepLine_marker]
    have hrest : GitWorktreeManager.parseLinesGo
        ({ path := some (String.mk b.path) } : GitWorktreeManager.PartialWT)
        (b.attrs ++ linesOfBlocks bs)
        = (blockRecord b) :: bs.map blockRecord := by
      rw [parse_go_attrs b.attrs _ _ hb.2,
        ih _ (fun bl hbl => h bl (List.mem_cons_of_mem b hbl)),
        finishRecord_block b hb.1]
      rfl
    cases hfin : GitWorktreeManager.finishRecord cur with
    | some r => simp only [hfin, hrest, Option.toList]; rfl
    | none => simp only [hfin, hrest, Option.toList]; rfl

/-- C7: for every porcelain input presented as blocks (a path marker line
with a nonempty path, followed by attribute lines that are not markers),
the parser emits exactly one record per marker line, in order, each
record's fields drawn only from the lines between its marker and the next
(or end of input); in particular the concrete two-block porcelain input
yields exactly the two expected records through the whole parsing
pipeline. -/
theorem C7_listWorktrees_parsing (blocks : List WTBlock)
    (h : ∀ b ∈ blocks, b.path ≠ []
        ∧ ∀ l ∈ b.attrs, "worktree ".toList.isPrefixOf l = false) :
    GitWorktreeManager.parseLinesGo {} (linesOfBlocks blocks)
      = blocks.map blockRecord
    ∧ GitWorktreeManager.listWorktreesParse
        "worktree /a\nHEAD c1\nbranch refs/heads/b1\nworktree /b\nHEAD c2\ndetached"
      = [{ path := "/a", commit := some "c1", branch := some "refs/heads/b1",
           bare := false, detached := false },
         { path := "/b", commit := some "c2", branch := none,
           bare := false, detached := true }] := by
  constructor
  · have hg := parse_go_blocks blocks {} h
    simpa using hg
  · rfl

/-- Witness for C7 at a concrete pair of blocks. -/
theorem C7_witness :
    GitWorktreeManager.parseLinesGo {} (linesOfBlocks
        [{ path := "/a".toList, attrs := ["HEAD c1".toList] },
         { path := "/b".toList, attrs := [] }])
      = [{ path := "/a".toList, attrs := ["HEAD c1".toList] },
         { path := "/b".toList, attrs := [] }].map blockRecord :=
  (C7_listWorktrees_parsing
    [{ path := "/a".toList, attrs := ["HEAD c1".toList] },
     { path := "/b".toList, attrs := [] }]
    (by decide)).1

/-! ## C10: dry run performs no mutation -/

/-- C10: for every collaborator behaviour and every invocation of the new,
rm and mr operations with the dry-run flag set, the operation performs no
mutating action at all: no worktree is created or removed, no branch is
created, fetched, pushed or deleted, and no post-creation command is
executed (the recorded action trace is empty, whether the operation reaches
the dry-run check and prints its plan or stops earlier). -/
theorem C10_dryRun_no_mutation (c : Commands.Collab) (cwd name : String)
    (iid : Int) (nopts : Commands.NewOptions) (ropts : Commands.RemoveOptions)
    (mopts : Commands.MROptions) (h1 : nopts.dryRun = true)
    (h2 : ropts.dryRun = true) (h3 : mopts.dryRun = true) :
    (Commands.newExecute c cwd name nopts).snd = []
    ∧ (Commands.removeExecute c cwd name ropts).snd = []
    ∧ (Commands.mrExecute c cwd iid mopts).snd = [] := by
  refine ⟨?_, ?_, ?_⟩
  · simp only [Commands.newExecute, h1, if_true]
    repeat first | rfl | split
  · simp only [Commands.removeExecute, h2, if_true]
    repeat first | rfl | split
  · simp only [Commands.mrExecute, h3, if_true]
    repeat first | rfl | split

/-- Witness for C10 at a concrete collaborator record and inputs. -/
theorem C10_witness :
    (Commands.newExecute sampleCollab "/repo" "feat"
        { branch := none, noPush := false, dryRun := true }).snd = []
    ∧ (Commands.removeExecute sampleCollab "/repo" "feat"
        { force := false, dryRun := true }).snd = []
    ∧ (Commands.mrExecute sampleCollab "/repo" 5
        { checkout := false, dryRun := true }).snd = [] :=
  C10_dryRun_no_mutation sampleCollab "/repo" "feat" 5
    { branch := none, noPush := false, dryRun := true }
    { force := false, dryRun := true }
    { checkout := false, dryRun := true } rfl rfl rfl

/-! ## C3: repository name extraction -/

theorem strToList_append (s t : String) :
    (s ++ t).toList = s.toList ++ t.toList := rfl

theorem takeDrop_split (p : Char → Bool) (l1 : List Char) (c : Char)
    (l2 : List Char) (h1 : ∀ a ∈ l1, p a = true) (hc : p c = false) :
    (l1 ++ c :: l2).takeWhile p = l1 ∧ (l1 ++ c :: l2).dropWhile p = c :: l2 := by
  induction l1 with
  | nil => simp [List.takeWhile, List.dropWhile, hc]
  | cons a t ih =>
    have ha := h1 a (List.mem_cons_self a t)
    have iht := ih (fun x hx => h1 x (List.mem_cons_of_mem a hx))
    simp only [List.cons_append, List.takeWhile, List.dropWhile, ha,
      List.append_eq]
    exact ⟨by rw [iht.1], by rw [iht.2]⟩

theorem takeDrop_all (p : Char → Bool) (l : List Char)
    (h : ∀ a ∈ l, p a = true) :
    l.takeWhile p = l ∧ l.dropWhile p = [] := by
  induction l with
  | nil => exact ⟨rfl, rfl⟩
  | cons a t ih =>
    have ha := h a (List.mem_cons_self a t)
    have iht := ih (fun x hx => h x (List.mem_cons_of_mem a hx))
    simp only [List.takeWhile, List.dropWhile, ha]
    exact ⟨by rw [iht.1], iht.2⟩

theorem lazyDot_stop (accept : List Char → Bool) (acc rest : List Char)
    (h1 : acc ≠ []) (h2 : accept rest = true) :
    GitRemoteManager.lazyDot accept acc rest = some acc.reverse := by
  have hie : acc.isEmpty = false := by
    cases acc with
    | nil => exact absurd rfl h1
    | cons x xs => rfl
  cases rest with
  | nil => simp [GitRemoteManager.lazyDot, hie, h2]
  | cons c t => simp [GitRemoteManager.lazyDot, hie, h2]

theorem lazyDot_nilnil (accept : List Char → Bool) :
    GitRemoteManager.lazyDot accept [] [] = none := by
  simp [GitRemoteManager.lazyDot]

theorem lazyDot_go (accept : List Char → Bool) (suffix : List Char)
    (haccept : accept suffix = true) :
    ∀ (nm acc : List Char), acc ≠ [] →
    (∀ ch ∈ nm, GitRemoteManager.dotOk ch = true) →
    (∀ k, k < nm.length → accept (nm.drop k ++ suffix) = false) →
    GitRemoteManager.lazyDot accept acc (nm ++ suffix)
      = some (acc.reverse ++ nm) := by
  intro nm
  induction nm with
  | nil =>
    intro acc hacc _ _
    simpa using lazyDot_stop accept acc suffix hacc haccept
  | cons c t ih =>
    intro acc hacc hdot hmin
    have h0 : accept (c :: (t ++ suffix)) = false := by
      have := hmin 0 (by simp)
      simpa using this
    have hdc : GitRemoteManager.dotOk c = true :=
      hdot c (List.mem_cons_self c t)
    show GitRemoteManager.lazyDot accept acc (c :: (t ++ suffix)) = _
    simp only [GitRemoteManager.lazyDot, h0, hdc, Bool.and_false,
      Bool.false_eq_true, if_false, if_true]
    rw [ih (c :: acc) (by simp)
      (fun ch hch => hdot ch (List.mem_cons_of_mem c hch))
      (fun k hk => by simpa using hmin (k + 1) (by simpa using hk))]
    simp

theorem lazyDot_start (accept : List Char → Bool) (suffix nm : List Char)
    (h1 : nm ≠ []) (h2 : ∀ ch ∈ nm, GitRemoteManager.dotOk ch = true)
    (h3 : accept suffix = true)
    (h4 : ∀ k, 0 < k → k < nm.length → accept (nm.drop k ++ suffix) = false) :
    GitRemoteManager.lazyDot accept [] (nm ++ suffix) = some nm := by
  cases nm with
  | nil => exact absurd rfl h1
  | cons c t =>
    have hdc : GitRemoteManager.dotOk c = true := h2 c (List.mem_cons_self c t)
    show GitRemoteManager.lazyDot accept [] (c :: (t ++ suffix)) = _
    simp only [GitRemoteManager.lazyDot, List.isEmpty_nil, Bool.not_true,
      Bool.false_and, Bool.false_eq_true, if_false, hdc, if_true]
    rw [lazyDot_go accept suffix h3 t [c] (by simp)
      (fun ch hch => h2 ch (List.mem_cons_of_mem c hch))
      (fun k hk => by simpa using h4 (k + 1) (by simp) (by simpa using hk))]
    simp

theorem tailMatch_with_group (accept : List Char → Bool) (g rest nm : List Char)
    (hg : g ≠ []) (hgs : ∀ ch ∈ g, ch ≠ '/')
    (H : GitRemoteManager.lazyDot accept [] rest = some nm) :
    GitRemoteManager.tailMatch accept (g ++ '/' :: rest) = some nm := by
  have hsplit := takeDrop_split (fun a => a != '/') g '/' rest
    (fun a ha => by simpa using hgs a ha) (by simp)
  have hie : g.isEmpty = false := by
    cases g with
    | nil => exact absurd rfl hg
    | cons x xs => rfl
  unfold GitRemoteManager.tailMatch
  rw [hsplit.1, hsplit.2]
  simp only [hie, Bool.false_eq_true, if_false, H]

theorem tailMatch_noslash (accept : List Char → Bool) (b nm : List Char)
    (hb : ∀ ch ∈ b, ch ≠ '/')
    (H : GitRemoteManager.lazyDot accept [] b = some nm) :
    GitRemoteManager.tailMatch accept b = some nm := by
  have hall := takeDrop_all (fun a => a != '/') b
    (fun a ha => by simpa using hb a ha)
  unfold GitRemoteManager.tailMatch
  rw [hall.1, hall.2]
  simp only [H]

theorem tailMatch_endslash (accept : List Char → Bool) (body nm : List Char)
    (hb : ∀ ch ∈ body, ch ≠ '/') (hne : body ≠ [])
    (H : GitRemoteManager.lazyDot accept [] (body ++ ['/']) = some nm) :
    GitRemoteManager.tailMatch accept (body ++ ['/']) = some nm := by
  have hsplit := takeDrop_split (fun a => a != '/') body '/' []
    (fun a ha => by simpa using hb a ha) (by simp)
  have hie : body.isEmpty = false := by
    cases body with
    | nil => exact absurd rfl hne
    | cons x xs => rfl
  unfold GitRemoteManager.tailMatch
  rw [hsplit.1, hsplit.2]
  simp only [hie, Bool.false_eq_true, if_false, lazyDot_nilnil, H]

theorem sshAfterAt_eval (host b nm : List Char) (hh : host ≠ [])
    (hhc : ∀ ch ∈ host, ch ≠ ':')
    (H : GitRemoteManager.tailMatch GitRemoteManager.sshTailAccept b = some nm) :
    GitRemoteManager.sshAfterAt (host ++ ':' :: b) = some nm := by
  have hsplit := takeDrop_split (fun a => a != ':') host ':' b
    (fun a ha => by simpa using hhc a ha) (by simp)
  have hie : host.isEmpty = false := by
    cases host with
    | nil => exact absurd rfl hh
    | cons x xs => rfl
  unfold GitRemoteManager.sshAfterAt
  rw [hsplit.1, hsplit.2]
  simp only [hie, Bool.false_eq_true, if_false, H]

theorem sshScan_head (l nm : List Char) (h4 : l.take 4 = "git@".toList)
    (H : GitRemoteManager.sshAfterAt (l.drop 4) = some nm) :
    GitRemoteManager.sshScan l = some nm := by
  cases l with
  | nil => exact absurd h4 (by decide)
  | cons c t =>
    unfold GitRemoteManager.sshScan
    rw [if_pos h4, H]

theorem schemeRest_eval (secure : Bool) (rest : List Char) :
    GitRemoteManager.schemeRest
        ((if secure then ['s'] else []) ++ ':' :: '/' :: '/' :: rest)
      = some rest := by
  cases secure <;> rfl

theorem httpMatch_eval (secure : Bool) (host b nm : List Char) (hh : host ≠ [])
    (hhs : ∀ ch ∈ host, ch ≠ '/')
    (H : GitRemoteManager.tailMatch GitRemoteManager.httpTailAccept b = some nm) :
    GitRemoteManager.httpMatch ((if secure then ['s'] else []) ++
        ':' :: '/' :: '/' :: (host ++ '/' :: b)) = some nm := by
  have hsplit := takeDrop_split (fun a => a != '/') host '/' b
    (fun a ha => by simpa using hhs a ha) (by simp)
  have hie : host.isEmpty = false := by
    cases host with
    | nil => exact absurd rfl hh
    | cons x xs => rfl
  unfold GitRemoteManager.httpMatch
  rw [schemeRest_eval secure (host ++ '/' :: b)]
  simp only []
  rw [hsplit.1, hsplit.2]
  simp only [hie, Bool.false_eq_true, if_false, H]

theorem httpScan_head (l nm : List Char) (h4 : l.take 4 = "http".toList)
    (H : GitRemoteManager.httpMatch (l.drop 4) = some nm) :
    GitRemoteManager.httpScan l = some nm := by
  cases l with
  | nil => exact absurd h4 (by decide)
  | cons c t =>
    unfold GitRemoteManager.httpScan
    rw [if_pos h4, H]

theorem ssh_accept_min (nm suffix : List Char)
    (hs : suffix = [] ∨ suffix = ".git".toList)
    (hgit : ¬(".git".toList <:+ nm)) :
    ∀ k, 0 < k → k < nm.length →
      GitRemoteManager.sshTailAccept (nm.drop k ++ suffix) = false := by
  intro k hk0 hklen
  have hd : nm.drop k ≠ [] := by
    intro hc
    have := List.drop_eq_nil_iff.mp hc
    omega
  rw [GitRemoteManager.sshTailAccept, decide_eq_false_iff_not]
  rintro (hnil | hgit4)
  · exact hd (List.append_eq_nil.mp hnil).1
  · cases hs with
    | inl h0 =>
      rw [h0, List.append_nil] at hgit4
      exact hgit (hgit4 ▸ List.drop_suffix k nm)
    | inr h4 =>
      rw [h4] at hgit4
      have hlen := congrArg List.length hgit4
      simp only [List.length_append] at hlen
      have hzero : (nm.drop k).length = 0 := by omega
      exact hd (List.eq_nil_of_length_eq_zero hzero)

theorem http_accept_min (nm suffix : List Char)
    (hs : suffix = [] ∨ suffix = ['/'] ∨ suffix = ".git".toList
        ∨ suffix = ".git/".toList)
    (hnm : ∀ ch ∈ nm, ch ≠ '/')
    (hgit : ¬(".git".toList <:+ nm)) :
    ∀ k, 0 < k → k < nm.length →
      GitRemoteManager.httpTailAccept (nm.drop k ++ suffix) = false := by
  intro k hk0 hklen
  have hd : nm.drop k ≠ [] := by
    intro hc
    have := List.drop_eq_nil_iff.mp hc
    omega
  have hsub : ∀ ch ∈ nm.drop k, ch ≠ '/' :=
    fun ch hch => hnm ch (List.mem_of_mem_drop hch)
  obtain ⟨x, hx⟩ := List.exists_mem_of_ne_nil _ hd
  rw [GitRemoteManager.httpTailAccept, decide_eq_false_iff_not]
  rintro (h1 | h2 | h3 | h4)
  · exact hd (List.append_eq_nil.mp h1).1
  · have hxm : x ∈ nm.drop k ++ suffix := List.mem_append_left _ hx
    rw [h2] at hxm
    simp only [List.mem_singleton] at hxm
    exact hsub x hx hxm
  · rcases hs with h0 | hsl | hg | hgsl
    · rw [h0, List.append_nil] at h3
      exact hgit (h3 ▸ List.drop_suffix k nm)
    · have hm : '/' ∈ nm.drop k ++ suffix := by
        rw [hsl]
        exact List.mem_append_right _ (List.mem_singleton.mpr rfl)
      rw [h3] at hm
      exact absurd hm (by decide)
    · rw [hg] at h3
      have hlen := congrArg List.length h3
      simp only [List.length_append] at hlen
      have hzero : (nm.drop k).length = 0 := by omega
      exact hd (List.eq_nil_of_length_eq_zero hzero)
    · have hm : '/' ∈ nm.drop k ++ suffix := by
        rw [hgsl]
        exact List.mem_append_right _ (by decide)
      rw [h3] at hm
      exact absurd hm (by decide)
  · rcases hs with h0 | hsl | hg | hgsl
    · rw [h0, List.append_nil] at h4
      have hm : '/' ∈ nm.drop k := by
        rw [h4]
        decide
      exact hsub '/' hm rfl
    · rw [hsl] at h4
      have heq : nm.drop k ++ ['/'] = ".git".toList ++ ['/'] := by
        rw [h4]
        rfl
      have hdk : nm.drop k = ".git".toList := List.append_cancel_right heq
      exact hgit (hdk ▸ List.drop_suffix k nm)
    · rw [hg] at h4
      have hm : '/' ∈ nm.drop k ++ ".git".toList := by
        rw [h4]
        decide
      rcases List.mem_append.mp hm with hm1 | hm2
      · exact hsub '/' hm1 rfl
      · exact absurd hm2 (by decide)
    · rw [hgsl] at h4
      have hlen := congrArg List.length h4
      simp only [List.length_append] at hlen
      have hzero : (nm.drop k).length = 0 := by omega
      exact hd (List.eq_nil_of_length_eq_zero hzero)

theorem sshScan_shape (host nm : List Char) (grp : Option (List Char))
    (gitSuffix : Bool) (hh : host ≠ []) (hhc : ∀ ch ∈ host, ch ≠ ':')
    (hn : nm ≠ []) (hns : ∀ ch ∈ nm, ch ≠ '/')
    (hdot : ∀ ch ∈ nm, GitRemoteManager.dotOk ch = true)
    (hgit : ¬(".git".toList <:+ nm))
    (hgrp : ∀ g, grp = some g → g ≠ [] ∧ ∀ ch ∈ g, ch ≠ '/') :
    GitRemoteManager.sshScan ("git@".toList ++ (host ++ ':' ::
        (grpPart grp ++ (nm ++ (if gitSuffix then ".git".toList else [])))))
      = some nm := by
  set suffix := (if gitSuffix then ".git".toList else []) with hsuffix
  have hsOr : suffix = [] ∨ suffix = ".git".toList := by
    cases gitSuffix <;> simp [hsuffix]
  have haccept : GitRemoteManager.sshTailAccept suffix = true := by
    rcases hsOr with h | h <;> rw [h] <;> decide
  have hlazy : GitRemoteManager.lazyDot GitRemoteManager.sshTailAccept []
      (nm ++ suffix) = some nm :=
    lazyDot_start _ suffix nm hn hdot haccept
      (ssh_accept_min nm suffix hsOr hgit)
  have htail : GitRemoteManager.tailMatch GitRemoteManager.sshTailAccept
      (grpPart grp ++ (nm ++ suffix)) = some nm := by
    cases grp with
    | none =>
      simp only [grpPart, List.nil_append]
      apply tailMatch_noslash _ _ _ ?hb hlazy
      intro ch hch
      rcases List.mem_append.mp hch with h1 | h2
      · exact hns ch h1
      · rcases hsOr with h | h
        · rw [h] at h2
          exact absurd h2 (List.not_mem_nil ch)
        · rw [h] at h2
          simp only [String.toList, List.mem_cons] at h2
          rcases h2 with rfl | rfl | rfl | rfl | h2 <;>
            first | decide | exact absurd h2 (List.not_mem_nil _)
    | some g =>
      obtain ⟨hg1, hg2⟩ := hgrp g rfl
      show GitRemoteManager.tailMatch GitRemoteManager.sshTailAccept
          ((g ++ ['/']) ++ (nm ++ suffix)) = some nm
      rw [List.append_assoc, List.singleton_append]
      exact tailMatch_with_group _ g (nm ++ suffix) nm hg1 hg2 hlazy
  have h4 : ("git@".toList).length = 4 := rfl
  apply sshScan_head
  · rw [← h4]
    exact List.take_left _ _
  · rw [← h4, List.drop_left]
    exact sshAfterAt_eval host _ nm hh hhc htail

theorem httpScan_shape (secure : Bool) (host nm : List Char)
    (grp : Option (List Char)) (gitSuffix trailingSlash : Bool)
    (hh : host ≠ []) (hhs : ∀ ch ∈ host, ch ≠ '/')
    (hn : nm ≠ []) (hns : ∀ ch ∈ nm, ch ≠ '/')
    (hdot : ∀ ch ∈ nm, GitRemoteManager.dotOk ch = true)
    (hgit : ¬(".git".toList <:+ nm))
    (hgrp : ∀ g, grp = some g → g ≠ [] ∧ ∀ ch ∈ g, ch ≠ '/') :
    GitRemoteManager.httpScan ("http".toList ++ ((if secure then ['s'] else []) ++
        ':' :: '/' :: '/' :: (host ++ '/' ::
          (grpPart grp ++ (nm ++ ((if gitSuffix then ".git".toList else [])
            ++ (if trailingSlash then ['/'] else [])))))))
      = some nm := by
  set gp := (if gitSuffix then ".git".toList else []) with hgp
  set sp := (if trailingSlash then ['/'] else []) with hsp
  have hsOr : gp ++ sp = [] ∨ gp ++ sp = ['/'] ∨ gp ++ sp = ".git".toList
      ∨ gp ++ sp = ".git/".toList := by
    cases gitSuffix <;> cases trailingSlash <;> simp [hgp, hsp]
  have haccept : GitRemoteManager.httpTailAccept (gp ++ sp) = true := by
    rcases hsOr with h | h | h | h <;> rw [h] <;> decide
  have hlazy : GitRemoteManager.lazyDot GitRemoteManager.httpTailAccept []
      (nm ++ (gp ++ sp)) = some nm :=
    lazyDot_start _ (gp ++ sp) nm hn hdot haccept
      (http_accept_min nm (gp ++ sp) hsOr hns hgit)
  have hgpslash : ∀ ch ∈ gp, ch ≠ '/' := by
    intro ch hch
    cases gitSuffix with
    | false =>
      rw [hgp] at hch
      exact absurd hch (by simp)
    | true =>
      rw [hgp] at hch
      simp only [if_true, String.toList, List.mem_cons] at hch
      rcases hch with rfl | rfl | rfl | rfl | hch
      · decide
      · decide
      · decide
      · decide
      · exact absurd hch (List.not_mem_nil _)
  have htail : GitRemoteManager.tailMatch GitRemoteManager.httpTailAccept
      (grpPart grp ++ (nm ++ (gp ++ sp))) = some nm := by
    cases grp with
    | none =>
      simp only [grpPart, List.nil_append]
      cases trailingSlash with
      | false =>
        have hsp0 : sp = [] := by rw [hsp]; rfl
        apply tailMatch_noslash _ _ _ ?hb hlazy
        intro ch hch
        rw [hsp0, List.append_nil] at hch
        rcases List.mem_append.mp hch with h1 | h2
        · exact hns ch h1
        · exact hgpslash ch h2
      | true =>
        have hsp1 : sp = ['/'] := by rw [hsp]; rfl
        have hassoc : nm ++ (gp ++ sp) = (nm ++ gp) ++ ['/'] := by
          rw [hsp1, List.append_assoc]
        rw [hassoc] at hlazy ⊢
        apply tailMatch_endslash _ _ _ ?hb2 ?hne2 hlazy
        case hb2 =>
          intro ch hch
          rcases List.mem_append.mp hch with h1 | h2
          · exact hns ch h1
          · exact hgpslash ch h2
        case hne2 =>
          intro hc
          exact hn (List.append_eq_nil.mp hc).1
    | some g =>
      obtain ⟨hg1, hg2⟩ := hgrp g rfl
      show GitRemoteManager.tailMatch GitRemoteManager.httpTailAccept
          ((g ++ ['/']) ++ (nm ++ (gp ++ sp))) = some nm
      rw [List.append_assoc, List.singleton_append]
      exact tailMatch_with_group _ g (nm ++ (gp ++ sp)) nm hg1 hg2 hlazy
  have h4 : ("http".toList).length = 4 := rfl
  apply httpScan_head
  · rw [← h4]
    exact List.take_left _ _
  · rw [← h4, List.drop_left]
    exact httpMatch_eval secure host _ nm hh hhs htail

/-- C3 counterexample: a URL of the SSH shape user@host:group/name.git whose
user part is not git is rejected with GitError by extractRepoName, where the
claim requires the final path segment repo. -/
theorem C3_counterexample_ssh_user :
    sshShapeUrl "alice" "example.com" (some "user") "repo" true
        = "alice@example.com:user/repo.git"
    ∧ GitRemoteManager.extractRepoName "alice@example.com:user/repo.git"
        = Except.error
            { message := "Unsupported git URL format: alice@example.com:user/repo.git" } :=
  ⟨rfl, rfl⟩

/-- C3 (amended): extractRepoName returns the final path segment with an
optional trailing .git stripped for every URL of the SSH shape
git@host:[group/]name[.git] (the user part must be the literal git) and for
every URL of the HTTP(S) shape scheme://host/[group/]name[.git][/]; every
URL of any other scheme fails with GitError, as does the concrete
ftp://example.com/repo. -/
theorem C3_extractRepoName_amended :
    (∀ (host nm : String) (grp : Option String) (gitSuffix : Bool),
      host.toList ≠ [] → (∀ ch ∈ host.toList, ch ≠ ':') →
      nm.toList ≠ [] → (∀ ch ∈ nm.toList, ch ≠ '/') →
      (∀ ch ∈ nm.toList, GitRemoteManager.dotOk ch = true) →
      ¬(".git".toList <:+ nm.toList) →
      (∀ g, grp = some g → g.toList ≠ [] ∧ ∀ ch ∈ g.toList, ch ≠ '/') →
      GitRemoteManager.extractRepoName (sshShapeUrl "git" host grp nm gitSuffix)
        = Except.ok nm)
    ∧ (∀ (secure : Bool) (host nm : String) (grp : Option String)
        (gitSuffix trailingSlash : Bool),
      host.toList ≠ [] → (∀ ch ∈ host.toList, ch ≠ '/') →
      nm.toList ≠ [] → (∀ ch ∈ nm.toList, ch ≠ '/') →
      (∀ ch ∈ nm.toList, GitRemoteManager.dotOk ch = true) →
      ¬(".git".toList <:+ nm.toList) →
      (∀ g, grp = some g → g.toList ≠ [] ∧ ∀ ch ∈ g.toList, ch ≠ '/') →
      GitRemoteManager.extractRepoName
          (httpShapeUrl secure host grp nm gitSuffix trailingSlash)
        = Except.ok nm)
    ∧ (∀ url : String, strStartsWith url "git@" = false →
        strStartsWith url "http" = false →
        ∃ e, GitRemoteManager.extractRepoName url = Except.error e)
    ∧ GitRemoteManager.extractRepoName "ftp://example.com/repo"
        = Except.error
            { message := "Unsupported git URL format: ftp://example.com/repo" } := by
  refine ⟨?_, ?_, ?_, rfl⟩
  · intro host nm grp gitSuffix hh hhc hn hns hdot hgit hgrp
    have hef : (sshShapeUrl "git" host grp nm gitSuffix).toList
        = "git@".toList ++ (host.toList ++ ':' ::
            (grpPart (Option.map String.toList grp) ++ (nm.toList ++
              (if gitSuffix then ".git".toList else [])))) := by
      cases grp <;> cases gitSuffix <;>
        simp [sshShapeUrl, grpPart, strToList_append, Option.map,
          List.append_assoc]
    have hstarts : strStartsWith (sshShapeUrl "git" host grp nm gitSuffix)
        "git@" = true := by
      unfold strStartsWith
      rw [hef]
      exact List.isPrefixOf_iff_prefix.mpr ⟨_, rfl⟩
    have hscan : GitRemoteManager.sshScan
        (sshShapeUrl "git" host grp nm gitSuffix).toList = some nm.toList := by
      rw [hef]
      apply sshScan_shape host.toList nm.toList (Option.map String.toList grp)
        gitSuffix hh hhc hn hns hdot hgit
      intro g hg
      cases grp with
      | none => exact absurd hg (by simp)
      | some g0 =>
        have hgg : g = g0.toList := by
          simpa [Option.map] using hg.symm
        subst hgg
        exact hgrp g0 rfl
    unfold GitRemoteManager.extractRepoName
    simp only [hstarts, if_true, hscan]
    rfl
  · intro secure host nm grp gitSuffix trailingSlash hh hhs hn hns hdot hgit hgrp
    have hef : (httpShapeUrl secure host grp nm gitSuffix trailingSlash).toList
        = "http".toList ++ ((if secure then ['s'] else []) ++
            ':' :: '/' :: '/' :: (host.toList ++ '/' ::
              (grpPart (Option.map String.toList grp) ++ (nm.toList ++
                ((if gitSuffix then ".git".toList else [])
                  ++ (if trailingSlash then ['/'] else [])))))) := by
      cases secure <;> cases grp <;> cases gitSuffix <;> cases trailingSlash <;>
        simp [httpShapeUrl, grpPart, strToList_append, Option.map,
          List.append_assoc]
    have hgitfalse : strStartsWith
        (httpShapeUrl secure host grp nm gitSuffix trailingSlash) "git@"
        = false := by
      unfold strStartsWith
      rw [hef]
      cases secure <;> simp [List.isPrefixOf]
    have hstarts : strStartsWith
        (httpShapeUrl secure host grp nm gitSuffix trailingSlash) "http"
        = true := by
      unfold strStartsWith
      rw [hef]
      exact List.isPrefixOf_iff_prefix.mpr ⟨_, rfl⟩
    have hscan : GitRemoteManager.httpScan
        (httpShapeUrl secure host grp nm gitSuffix trailingSlash).toList
        = some nm.toList := by
      rw [hef]
      apply httpScan_shape secure host.toList nm.toList
        (Option.map String.toList grp) gitSuffix trailingSlash hh hhs hn hns
        hdot hgit
      intro g hg
      cases grp with
      | none => exact absurd hg (by simp)
      | some g0 =>
        have hgg : g = g0.toList := by
          simpa [Option.map] using hg.symm
        subst hgg
        exact hgrp g0 rfl
    unfold GitRemoteManager.extractRepoName
    simp only [hgitfalse, Bool.false_eq_true, if_false, hstarts, if_true, hscan]
    rfl
  · intro url h1 h2
    unfold GitRemoteManager.extractRepoName
    simp only [h1, h2, Bool.false_eq_true, if_false]
    exact ⟨_, rfl⟩

/-- Witness for C3 at the concrete URLs of the specification examples. -/
theorem C3_witness :
    GitRemoteManager.extractRepoName
        (sshShapeUrl "git" "github.com" (some "user") "repo" true)
      = Except.ok "repo"
    ∧ GitRemoteManager.extractRepoName
        (httpShapeUrl true "gitlab.com" (some "user") "awesome-project" true false)
      = Except.ok "awesome-project"
    ∧ GitRemoteManager.extractRepoName
        (httpShapeUrl true "github.com" (some "org") "awesome-tool" false false)
      = Except.ok "awesome-tool" := by
  have h := C3_extractRepoName_amended
  refine ⟨?_, ?_, ?_⟩
  · exact h.1 "github.com" "repo" (some "user") true (by decide) (by decide)
      (by decide) (by decide) (by decide) (by decide)
      (fun g hg => by cases hg; exact ⟨by decide, by decide⟩)
  · exact h.2.1 true "gitlab.com" "awesome-project" (some "user") true false
      (by decide) (by decide) (by decide) (by decide) (by decide) (by decide)
      (fun g hg => by cases hg; exact ⟨by decide, by decide⟩)
  · exact h.2.1 true "github.com" "awesome-tool" (some "org") false false
      (by decide) (by decide) (by decide) (by decide) (by decide) (by decide)
      (fun g hg => by cases hg; exact ⟨by decide, by decide⟩)

end KWT
